import Mathlib

/-!
Shallow embedding of the CSS-GFL-ZE-Downloader sources (src/main.rs and
src/bz2_file.rs).  Rust strings are modelled as `List Char`; the external
effects (HTTP fetches, the bzip2 decoder, the filesystem) are modelled as
explicit oracle parameters, and the fallible Rust operations are modelled
with `Option` and `Except`.  Each definition is annotated with the source
location it embeds.
-/

/-- Rust `str::starts_with` on character lists. -/
def startsWithL : List Char → List Char → Bool
  | _, [] => true
  | [], _ :: _ => false
  | c :: s, p :: ps => (c == p) && startsWithL s ps

/-- Rust `str::contains` for a literal pattern: some suffix of the string
starts with the pattern. -/
def hasSub : List Char → List Char → Bool
  | [], pat => startsWithL [] pat
  | c :: rest, pat => startsWithL (c :: rest) pat || hasSub rest pat

/-- Rust `str::ends_with` on character lists. -/
def endsWithL (s pat : List Char) : Bool := startsWithL s.reverse pat.reverse

/-- main.rs:22 `const REDIRECT_LINK: &str = "gflfastdlv2"`. -/
def REDIRECT_LINK : List Char := ['g', 'f', 'l', 'f', 'a', 's', 't', 'd', 'l', 'v', '2']

/-- The `"maps/"` marker tested in main.rs:189-195. -/
def mapsMarker : List Char := ['m', 'a', 'p', 's', '/']

/-- The `"ze_"` marker tested in main.rs:195. -/
def zeMarker : List Char := ['z', 'e', '_']

/-- The `"index.html"` marker tested in main.rs:185. -/
def indexMarker : List Char := ['i', 'n', 'd', 'e', 'x', '.', 'h', 't', 'm', 'l']

/-- The `".tmp"` marker tested in main.rs:186. -/
def tmpMarker : List Char := ['.', 't', 'm', 'p']

/-- The `".ztmp"` marker tested in main.rs:187. -/
def ztmpMarker : List Char := ['.', 'z', 't', 'm', 'p']

/-- main.rs:189 guard of the recurse branch:
`!path.contains(REDIRECT_LINK) && !path.contains("maps/")`. -/
def recurseCond (path : List Char) : Bool :=
  !hasSub path REDIRECT_LINK && !hasSub path mapsMarker

/-- main.rs:192-195 guard of the download branch:
`(path.contains(REDIRECT_LINK) && !path.ends_with("/") && !path.contains("maps/"))
|| (path.contains("maps/") && path.contains("ze_"))`. -/
def downloadCond (path : List Char) : Bool :=
  (hasSub path REDIRECT_LINK && !endsWithL path ['/'] && !hasSub path mapsMarker)
    || (hasSub path mapsMarker && hasSub path zeMarker)

/-- main.rs:184-215, the per-reference body of the `par_iter().for_each` closure:
given whether the canonical path is already in the visited set, returns the pair
(inserted into `download_links`, pushed onto `new_paths` for the next wave). -/
def refInsertions (visitedContains : Bool) (path : List Char) : Bool × Bool :=
  if !visitedContains && !hasSub path indexMarker && !hasSub path tmpMarker
      && !hasSub path ztmpMarker then
    if recurseCond path then (false, true)
    else if downloadCond path then (true, false)
    else (false, false)
  else (false, false)

/-- main.rs:127-138: a crawl task marks `curr_path` visited together with
`curr_path_alt`, the string produced by `chars().next_back()`, i.e. the path
with its final character removed. -/
def markVisited (visited : List (List Char)) (currPath : List Char) : List (List Char) :=
  currPath :: currPath.dropLast :: visited

/-- main.rs:306-319, the per-URL download loop: `attempt k` abstracts the k-th
iteration of `reqwest::blocking::get(dl_url)` followed by `response.bytes()`
(`none` when either step fails, in which case the loop sleeps one second and
retries).  `fuel` bounds how many iterations are observed; `none` means the
loop is still running after `fuel` iterations.  `some (j, body)` means the
j-th attempt succeeded and `body` was written to the local file. -/
def downloadFrom (attempt : Nat → Option (List Nat)) : Nat → Nat → Option (Nat × List Nat)
  | _, 0 => none
  | k, fuel + 1 =>
    match attempt k with
    | some body => some (k, body)
    | none => downloadFrom attempt (k + 1) fuel

/-- The `".bz2"` compression suffix (main.rs:330, main.rs:351). -/
def bz2Marker : List Char := ['.', 'b', 'z', '2']

/-- main.rs:351 `file_name_path.replace(".bz2", "")`: Rust `str::replace`
removes every non-overlapping occurrence of `".bz2"`, scanning left to right. -/
def stripBz2 : List Char → List Char
  | '.' :: 'b' :: 'z' :: '2' :: rest => stripBz2 rest
  | c :: rest => c :: stripBz2 rest
  | [] => []

/-- Oracle for the effects of one iteration of the decode pass (main.rs:343-412):
whether `File::open` succeeds, what `BZ2File::decode_block` yields (`none` is a
decode error, `some bytes` the decoded byte sequence accumulated by
`read_to_end` in bz2_file.rs:25-33), and whether `output.write_all` succeeds.
`File::create` and `fs::remove_file` panic on failure in the source
(`unwrap`), so they are modelled as succeeding. -/
structure DecodeEnv where
  openOk : Bool
  decodeResult : Option (List Nat)
  writeOk : Bool

/-- Observable per-file outcome of the decode pass: identifiers inserted into
`corrupt_files`, the path handed to `File::create` (if reached), the path and
bytes fully written by `write_all` (if it succeeded), and whether
`fs::remove_file` deleted the original `.bz2` file. -/
structure FileOutcome where
  corrupt : List (List Char)
  outputCreated : Option (List Char)
  outputWritten : Option (List Char × List Nat)
  deleted : Bool
deriving DecidableEq

/-- main.rs:343-412, the per-file body of `decode_files`:
open the file (silently skipping it on failure), decode it (recording
`file_name` in `corrupt_files` and returning early on failure), create the
output at the path with `".bz2"` replaced away, write the decoded bytes
(recording `file_name_path` in `corrupt_files` on failure), then delete the
original `.bz2` file. -/
def decodeOneFile (env : DecodeEnv) (fileNamePath fileName : List Char) : FileOutcome :=
  let outputNamePath := stripBz2 fileNamePath
  if env.openOk then
    match env.decodeResult with
    | none =>
        { corrupt := [fileName], outputCreated := none, outputWritten := none, deleted := false }
    | some bytes =>
        if env.writeOk then
          { corrupt := [], outputCreated := some outputNamePath,
            outputWritten := some (outputNamePath, bytes), deleted := true }
        else
          { corrupt := [fileNamePath], outputCreated := some outputNamePath,
            outputWritten := none, deleted := true }
  else
    { corrupt := [], outputCreated := none, outputWritten := none, deleted := false }

/-- A decode-pass oracle where the file opens and decodes but the output write
fails (the C1 failing input). -/
def writeFailEnv : DecodeEnv := { openOk := true, decodeResult := some [1, 2], writeOk := false }

/-- A decode-pass oracle where the file cannot be opened. -/
def openFailEnv : DecodeEnv := { openOk := false, decodeResult := none, writeOk := true }

/-- A decode-pass oracle where everything succeeds. -/
def decodeOkEnv : DecodeEnv := { openOk := true, decodeResult := some [7], writeOk := true }

/-- A download-attempt oracle that fails twice and then succeeds. -/
def attemptTwo (i : Nat) : Option (List Nat) := if i = 2 then some [9] else none

/-- The longest run of characters matchable by the regex metacharacter `.`
(anything but a newline) at the head of the input. -/
def lineTake : List Char → List Char
  | [] => []
  | c :: rest => if c = '\n' then [] else c :: lineTake rest

/-- Split a string at its last `'/'`: returns the parts before and after it,
or `none` when it contains no `'/'`. -/
def splitLastSlash : List Char → Option (List Char × List Char)
  | [] => none
  | c :: rest =>
    match splitLastSlash rest with
    | some (x, y) => some (c :: x, y)
    | none => if c = '/' then some ([], rest) else none

/-- Backtracking semantics of the trailing `(.*+)/(.*+)` of the regex in
main.rs:256 (`(.*+)` parses as a capture group around a nested repetition of
`.*`, which matches exactly the same spans as a greedy `.*`): the third
capture greedily extends to the last `'/'` of the current line, the fourth
takes the rest of the line. -/
def tailCaptures (l : List Char) : Option (List Char × List Char) :=
  splitLastSlash (lineTake l)

/-- Backtracking semantics of `(.+?)/(.*+)/(.*+)`: the lazy nonempty second
capture stops at the earliest `'/'` from which the tail still matches;
no capture may contain a newline. -/
def scanHostTail (acc : List Char) : List Char → Option (List Char × List Char × List Char)
  | [] => none
  | c :: rest =>
    if c = '\n' then none
    else if c = '/' then
      match acc, tailCaptures rest with
      | _ :: _, some (g3, g4) => some (acc.reverse, g3, g4)
      | _, _ => scanHostTail (c :: acc) rest
    else scanHostTail (c :: acc) rest

/-- Backtracking semantics of the full pattern `(.+?)//(.+?)/(.*+)/(.*+)` at a
fixed start position: the lazy nonempty first capture stops at the earliest
`"//"` from which the rest still matches. -/
def scanSchemeRest (acc : List Char) :
    List Char → Option (List Char × List Char × List Char × List Char)
  | [] => none
  | [_] => none
  | c1 :: c2 :: rest =>
    if c1 = '\n' then none
    else if c1 = '/' ∧ c2 = '/' then
      match acc, scanHostTail [] rest with
      | _ :: _, some (g2, g3, g4) => some (acc.reverse, g2, g3, g4)
      | _, _ => scanSchemeRest (c1 :: acc) (c2 :: rest)
    else scanSchemeRest (c1 :: acc) (c2 :: rest)

/-- `Regex::new("(.+?)//(.+?)/(.*+)/(.*+)").captures(s)` (main.rs:256-257):
the captures of the leftmost-first match — earliest start position at which
the backtracking search succeeds. -/
def regexCaptures : List Char → Option (List Char × List Char × List Char × List Char)
  | [] => none
  | c :: rest =>
    match scanSchemeRest [] (c :: rest) with
    | some r => some r
    | none => regexCaptures rest

/-- main.rs:259 `captures[3].replace("/", "\\")` (a one-character pattern, so
each `'/'` is replaced by `'\\'`). -/
def replaceSlashBackslash (s : List Char) : List Char :=
  s.map fun c => if c = '/' then '\\' else c

/-- main.rs:255-268, the `dl_url_paths` closure of `download_files`: from the
regex captures of the URL, build the directory path `curr_path \ captures[3]`
(with `/` turned into `\`) and the file path `dir_path \ captures[4]`.
`none` models the panic of `captures(dl_url).unwrap()` when the regex does not
match. -/
def dl_url_paths (currPath dlUrl : List Char) : Option (List Char × List Char) :=
  match regexCaptures dlUrl with
  | none => none
  | some (_, _, dir0, file) =>
    let dir := replaceSlashBackslash dir0
    let dirPath := currPath ++ '\\' :: dir
    some (dirPath, dirPath ++ '\\' :: file)

/-- The `".."` path segment. -/
def dotdotSeg : List Char := ['.', '.']

/-- The `"."` path segment. -/
def dotSeg : List Char := ['.']

/-- Split the part of a path after its leading `'/'` into segments at each
`'/'` (the segment walk of the WHATWG path parser used by `Url::parse`). -/
def splitSlash : List Char → List (List Char)
  | [] => [[]]
  | c :: cs =>
    match splitSlash cs with
    | [] => [[]]
    | s :: rest => if c = '/' then [] :: s :: rest else (c :: s) :: rest

/-- Reassemble segments with `'/'` between them. -/
def joinSlash : List (List Char) → List Char
  | [] => []
  | [s] => s
  | s :: s2 :: rest => s ++ '/' :: joinSlash (s2 :: rest)

/-- WHATWG dot-segment removal as performed by the `url` crate while parsing:
a `".."` segment pops the previous segment (appending an empty segment when it
is the last one), a `"."` segment is dropped (appending an empty segment when
it is the last one), other segments are appended. -/
def normSegsAux (out : List (List Char)) : List (List Char) → List (List Char)
  | [] => out
  | [s] =>
    if s = dotdotSeg then out.dropLast ++ [[]]
    else if s = dotSeg then out ++ [[]]
    else out ++ [s]
  | s :: s2 :: rest =>
    if s = dotdotSeg then normSegsAux out.dropLast (s2 :: rest)
    else if s = dotSeg then normSegsAux out (s2 :: rest)
    else normSegsAux (out ++ [s]) (s2 :: rest)

/-- `Url::parse(u).path()` restricted to the path part: the dot-segment
normalized absolute path. -/
def urlNormPath (p : List Char) : List Char :=
  match p with
  | '/' :: rest => '/' :: joinSlash (normSegsAux [] (splitSlash rest))
  | other => other

/-- main.rs:56-81, the initialization of `scrape_web` before the wave loop,
as a function of the root URL's path (the part of `dl_url` after
scheme://host): `parent_dir_url_1` is the path of `Url::parse(dl_url ++ "..")`
(main.rs:56-58), `parent_dir_url_2` the same string with its last character
removed (main.rs:61-65); `visited_paths` receives `"/"`, then both parents
(main.rs:68-70), and `unvisited_paths` receives the parsed root's path
(main.rs:78-81).  Returns (visited set, frontier). -/
def scrapeInit (rootPath : List Char) : List (List Char) × List (List Char) :=
  let parent1 := urlNormPath (rootPath ++ dotdotSeg)
  let parent2 := parent1.dropLast
  ([['/'], parent1, parent2], [urlNormPath rootPath])

/-- Oracle for the crawl's network effects: `fetchPage p` models
`reqwest::blocking::get` plus `.text()` plus anchor extraction on the listing
page at path `p` (main.rs:150-160; `Document::from` and the anchor walk never
fail, so the error case is the transport failure), returning the page's href
attributes; `probe h` models `url.join(x).unwrap()` plus the POST metadata
probe of main.rs:171-176, returning the canonical path and the rebuilt
`next_site` string (`none` models a probe failure, which the source unwraps
into a panic).  Base-URL resolution (get_base_url, main.rs:32-38) is folded
into these oracles. -/
structure CrawlEnv where
  fetchPage : List Char → Except (List Char) (List (List Char))
  probe : List Char → Option (List Char × List Char)

/-- Outcome of one crawl: a completed download-link set, a propagated error
(the error-chain Result of `scrape_web`), an abort by panic (a failed unwrap
in a worker propagated through `join().unwrap()`), or fuel exhaustion of the
model (the wave loop still running). -/
inductive CrawlResult
  | ok (links : List (List Char))
  | err (e : List Char)
  | panicked
  | outOfFuel
deriving DecidableEq

/-- main.rs:167-216: process the hrefs of one fetched listing page in order:
probe each one (`none` means panic), then classify it with `refInsertions`
against the current visited set; a download insertion receives `next_site`, a
next-wave insertion receives the bare path.  Returns the download insertions
and next-wave paths of the page, or `none` on panic. -/
def processHrefs (env : CrawlEnv) (visited : List (List Char)) :
    List (List Char) → Option (List (List Char) × List (List Char))
  | [] => some ([], [])
  | h :: rest =>
    match env.probe h with
    | none => none
    | some (path, nextSite) =>
      match processHrefs env visited rest with
      | none => none
      | some (dls, fr) =>
        let r := refInsertions (decide (path ∈ visited)) path
        some ((if r.1 then nextSite :: dls else dls), (if r.2 then path :: fr else fr))

/-- main.rs:98-235: one wave of the crawl, processed sequentially (the source
runs one thread per path; the sequential order stands in for one admissible
interleaving).  Per path: skip it when already visited (main.rs:104),
otherwise mark it and its last-character-dropped alias visited
(main.rs:127-138), fetch its listing page (a failure is unwrapped into a
panic, main.rs:150-153), and process its hrefs.  Returns the new visited set,
download set and next-wave frontier, or `none` on panic. -/
def exploreWave (env : CrawlEnv) :
    List (List Char) → List (List Char) → List (List Char) →
    Option (List (List Char) × List (List Char) × List (List Char))
  | visited, dls, [] => some (visited, dls, [])
  | visited, dls, p :: rest =>
    if p ∈ visited then exploreWave env visited dls rest
    else
      match env.fetchPage p with
      | Except.error _ => none
      | Except.ok hrefs =>
        match processHrefs env (markVisited visited p) hrefs with
        | none => none
        | some (newDls, newPaths) =>
          match exploreWave env (markVisited visited p) (newDls ++ dls) rest with
          | none => none
          | some (v2, d2, f2) => some (v2, d2, newPaths ++ f2)

/-- main.rs:84-236, the wave loop: stop with the download-link set once the
frontier is empty, otherwise run one wave and merge its results; `fuel`
bounds the number of waves observed. -/
def crawlLoop (env : CrawlEnv) :
    Nat → List (List Char) → List (List Char) → List (List Char) → CrawlResult
  | 0, _, _, _ => CrawlResult.outOfFuel
  | fuel + 1, visited, dls, frontier =>
    if frontier = [] then CrawlResult.ok dls
    else
      match exploreWave env visited dls frontier with
      | none => CrawlResult.panicked
      | some (v, d, f) => crawlLoop env fuel v d f

/-- main.rs:44-243 `scrape_web`, as a function of the root URL's path:
initialize the visited set and frontier (main.rs:56-81, via `scrapeInit`),
propagate a failure of the root fetch (the `?` at main.rs:73), then run the
wave loop and return the download-link set. -/
def scrape_web (env : CrawlEnv) (fuel : Nat) (rootPath : List Char) : CrawlResult :=
  match env.fetchPage rootPath with
  | Except.error e => CrawlResult.err e
  | Except.ok _ =>
    let init := scrapeInit rootPath
    crawlLoop env fuel init.1 [] init.2

/-- A crawl oracle whose root listing page /s/ links to /s/a/, whose listing
page cannot be fetched. -/
def crawlEnvPanic : CrawlEnv :=
  { fetchPage := fun p => if p = ['/', 's', '/'] then Except.ok [['x']] else Except.error ['E'],
    probe := fun _ => some (['/', 's', '/', 'a', '/'], ['u']) }

/-- A crawl oracle whose every fetch fails. -/
def crawlEnvErr : CrawlEnv :=
  { fetchPage := fun _ => Except.error ['E'], probe := fun _ => none }

/-- If the four-character pattern is exhausted, appending to the scanned string
does not change whether it starts with `bz2Marker`. -/
lemma startsWithL_bz2_append (c1 c2 c3 c4 : Char) (s t : List Char) :
    startsWithL (c1 :: c2 :: c3 :: c4 :: (s ++ t)) bz2Marker
      = startsWithL (c1 :: c2 :: c3 :: c4 :: s) bz2Marker := by
  simp [startsWithL, bz2Marker]

/-- When a string does not start with `".bz2"`, `stripBz2` keeps its head. -/
lemma stripBz2_cons_of_not (c : Char) (r : List Char)
    (h : startsWithL (c :: r) bz2Marker = false) :
    stripBz2 (c :: r) = c :: stripBz2 r := by
  rw [stripBz2.eq_def]
  split <;> simp_all [startsWithL, bz2Marker]

/-- If `".bz2"` does not occur in `q`, then `replace` only removes the trailing
suffix from `q ++ ".bz2"`. -/
lemma stripBz2_trailing : ∀ q : List Char, hasSub q bz2Marker = false →
    stripBz2 (q ++ bz2Marker) = q := by
  intro q
  induction q with
  | nil => intro _; decide
  | cons c q ih =>
    intro h
    have h12 : startsWithL (c :: q) bz2Marker = false ∧ hasSub q bz2Marker = false := by
      simpa [hasSub] using h
    have hsw : startsWithL (c :: (q ++ bz2Marker)) bz2Marker = false := by
      match q, h12.1 with
      | [], h1 => simp_all [startsWithL, bz2Marker]
      | [d], h1 => simp_all [startsWithL, bz2Marker]
      | [d, e], h1 => simp_all [startsWithL, bz2Marker]
      | d :: e :: f :: t, h1 =>
        rw [show c :: (d :: e :: f :: t ++ bz2Marker) = c :: d :: e :: f :: (t ++ bz2Marker) by simp]
        rw [startsWithL_bz2_append]
        exact h1
    rw [List.cons_append, stripBz2_cons_of_not c (q ++ bz2Marker) hsw, ih h12.2]

/-- C3: for each classified reference, insertion into the download set and
insertion into the next-wave buffer are mutually exclusive outcomes; since the
decision in main.rs:189-195 depends only on the path string, this holds even
across different visited-set states, hence across waves. -/
theorem ref_insert_exclusive (v v2 : Bool) (path : List Char) :
    ((refInsertions v path).1 && (refInsertions v2 path).2) = false := by
  unfold refInsertions
  cases v <;> cases v2 <;>
    cases hm1 : hasSub path indexMarker <;>
    cases hm2 : hasSub path tmpMarker <;>
    cases hm3 : hasSub path ztmpMarker <;>
    cases hr : recurseCond path <;>
    cases hd : downloadCond path <;>
    simp [hm1, hm2, hm3, hr, hd]

/-- C6: a reference whose canonical path contains the index filename marker or
either temporary-file marker is discarded before classification: it is neither
inserted into the download set nor added to the next wave's frontier. -/
theorem marker_filter_spec (v : Bool) (path : List Char)
    (h : hasSub path indexMarker = true ∨ hasSub path tmpMarker = true
        ∨ hasSub path ztmpMarker = true) :
    refInsertions v path = (false, false) := by
  rcases h with h | h | h <;> simp [refInsertions, h]

/-- Witness for `marker_filter_spec` at the concrete path "/a/index.html". -/
theorem marker_filter_spec_witness :
    (hasSub ['/', 'a', '/', 'i', 'n', 'd', 'e', 'x', '.', 'h', 't', 'm', 'l'] indexMarker = true
        ∨ hasSub ['/', 'a', '/', 'i', 'n', 'd', 'e', 'x', '.', 'h', 't', 'm', 'l'] tmpMarker = true
        ∨ hasSub ['/', 'a', '/', 'i', 'n', 'd', 'e', 'x', '.', 'h', 't', 'm', 'l'] ztmpMarker = true)
      ∧ refInsertions false ['/', 'a', '/', 'i', 'n', 'd', 'e', 'x', '.', 'h', 't', 'm', 'l']
          = (false, false) :=
  ⟨Or.inl (by decide),
    marker_filter_spec false ['/', 'a', '/', 'i', 'n', 'd', 'e', 'x', '.', 'h', 't', 'm', 'l']
      (Or.inl (by decide))⟩

/-- C4 counterexample: exploring the path "/ab" (no trailing separator) marks
"/ab" and the unrelated path "/a" visited, and does not mark the
trailing-separator spelling "/ab/". -/
theorem mark_visited_counterexample :
    ((markVisited [] ['/', 'a', 'b']).contains ['/', 'a', 'b', '/']) = false
      ∧ ((markVisited [] ['/', 'a', 'b']).contains ['/', 'a']) = true := by
  decide

/-- C4 amended: when the explored path ends with the trailing separator, the
task marks exactly the two spellings, with and without the separator, and
nothing else beyond the previous visited set. -/
theorem mark_visited_dir_spec (visited : List (List Char)) (q : List Char) :
    markVisited visited (q ++ ['/']) = (q ++ ['/']) :: q :: visited := by
  simp [markVisited]

/-- C9: the per-URL download loop never surfaces a transport failure: a failed
attempt is followed by a retry of the same fetch, the loop returns only when an
attempt succeeds (returning that attempt's body, every earlier attempt having
failed), and while every attempt fails it never terminates. -/
theorem download_retry_spec :
    (∀ attempt k fuel j body, downloadFrom attempt k fuel = some (j, body) →
        attempt j = some body ∧ k ≤ j ∧ ∀ i, k ≤ i → i < j → attempt i = none) ∧
      (∀ attempt k fuel, attempt k = none →
        downloadFrom attempt k (fuel + 1) = downloadFrom attempt (k + 1) fuel) ∧
      (∀ attempt k fuel, (∀ i, attempt i = none) → downloadFrom attempt k fuel = none) := by
  refine ⟨?_, ?_, ?_⟩
  · intro attempt k fuel
    induction fuel generalizing k with
    | zero => intro j body h; simp [downloadFrom] at h
    | succ n ih =>
      intro j body h
      rw [downloadFrom] at h
      cases ha : attempt k with
      | some b =>
        rw [ha] at h
        obtain ⟨rfl, rfl⟩ : k = j ∧ b = body := by
          simpa using h
        exact ⟨ha, Nat.le_refl _, fun i h1 h2 => absurd (Nat.lt_of_le_of_lt h1 h2) (Nat.lt_irrefl _)⟩
      | none =>
        rw [ha] at h
        obtain ⟨h1, h2, h3⟩ := ih (k + 1) j body h
        refine ⟨h1, by omega, fun i hki hij => ?_⟩
        by_cases hik : i = k
        · exact hik ▸ ha
        · exact h3 i (by omega) hij
  · intro attempt k fuel h
    rw [downloadFrom, h]
  · intro attempt k fuel h
    induction fuel generalizing k with
    | zero => rfl
    | succ n ih => rw [downloadFrom, h k]; exact ih (k + 1)

/-- Witness for `download_retry_spec` on a concrete attempt sequence that fails
at index 0: the loop retries at index 1. -/
theorem download_retry_spec_witness :
    attemptTwo 0 = none ∧ downloadFrom attemptTwo 0 4 = downloadFrom attemptTwo 1 3 :=
  ⟨by decide, download_retry_spec.2.1 attemptTwo 0 3 (by decide)⟩

/-- C1 (code bug): on the failing input — a `.bz2` file that opens and decodes
but whose decoded output fails to write — the file is recorded in the corrupt
set, yet main.rs:410 still deletes the original compressed file. -/
theorem decode_write_fail_deletes :
    (decodeOneFile writeFailEnv ['.', '/', 'm', '.', 'b', 'z', '2']
          ['m', '.', 'b', 'z', '2']).corrupt = [['.', '/', 'm', '.', 'b', 'z', '2']]
      ∧ (decodeOneFile writeFailEnv ['.', '/', 'm', '.', 'b', 'z', '2']
          ['m', '.', 'b', 'z', '2']).deleted = true := by
  decide

/-- C10: a discovered `.bz2` file that cannot be opened is silently skipped:
nothing is recorded as corrupt, no output file is created or written, and the
file is not deleted. -/
theorem decode_open_fail_skip (env : DecodeEnv) (p n : List Char) (h : env.openOk = false) :
    decodeOneFile env p n =
      { corrupt := [], outputCreated := none, outputWritten := none, deleted := false } := by
  simp [decodeOneFile, h]

/-- Witness for `decode_open_fail_skip` on a concrete unopenable file. -/
theorem decode_open_fail_skip_witness :
    openFailEnv.openOk = false
      ∧ decodeOneFile openFailEnv ['.', '/', 'm', '.', 'b', 'z', '2'] ['m', '.', 'b', 'z', '2']
          = { corrupt := [], outputCreated := none, outputWritten := none, deleted := false } :=
  ⟨rfl, decode_open_fail_skip openFailEnv ['.', '/', 'm', '.', 'b', 'z', '2']
    ['m', '.', 'b', 'z', '2'] rfl⟩

/-- C8 counterexample: for the discovered file "./x.bz2.bz2" the decoded output
is written to "./x" — `replace` removed both occurrences of ".bz2" — not to
"./x.bz2", the path with only the trailing suffix removed. -/
theorem decode_replace_counterexample :
    (decodeOneFile decodeOkEnv ['.', '/', 'x', '.', 'b', 'z', '2', '.', 'b', 'z', '2']
          ['x', '.', 'b', 'z', '2', '.', 'b', 'z', '2']).outputWritten
        = some (['.', '/', 'x'], [7])
      ∧ ((['.', '/', 'x'] : List Char) == ['.', '/', 'x', '.', 'b', 'z', '2']) = false := by
  decide

/-- C8 amended: on decode success the full decoded byte sequence is written to
the path obtained by removing every occurrence of `".bz2"` from the original
path (which equals the path with only its trailing suffix stripped whenever
`".bz2"` occurs nowhere else), and the original compressed file is deleted only
in the decode-success case. -/
theorem decode_success_spec :
    (∀ (env : DecodeEnv) (p n : List Char) (bytes : List Nat),
        env.openOk = true → env.decodeResult = some bytes →
        (decodeOneFile env p n).deleted = true ∧
          (env.writeOk = true →
            (decodeOneFile env p n).outputWritten = some (stripBz2 p, bytes))) ∧
      (∀ q : List Char, hasSub q bz2Marker = false → stripBz2 (q ++ bz2Marker) = q) ∧
      (∀ (env : DecodeEnv) (p n : List Char), (decodeOneFile env p n).deleted = true →
        env.openOk = true ∧ ∃ bytes, env.decodeResult = some bytes) := by
  refine ⟨?_, stripBz2_trailing, ?_⟩
  · intro env p n bytes h1 h2
    refine ⟨?_, fun hw => ?_⟩
    · cases hw : env.writeOk <;> simp [decodeOneFile, h1, h2, hw]
    · simp [decodeOneFile, h1, h2, hw]
  · intro env p n h
    cases ho : env.openOk with
    | false => simp [decodeOneFile, ho] at h
    | true =>
      cases hd : env.decodeResult with
      | none => simp [decodeOneFile, ho, hd] at h
      | some bytes => exact ⟨rfl, bytes, rfl⟩

/-- Witness for `decode_success_spec` on a concrete successful decode. -/
theorem decode_success_spec_witness :
    decodeOkEnv.openOk = true ∧ decodeOkEnv.decodeResult = some [7] ∧
      (decodeOneFile decodeOkEnv ['.', '/', 'm', '.', 'b', 'z', '2']
          ['m', '.', 'b', 'z', '2']).deleted = true :=
  ⟨rfl, rfl,
    (decode_success_spec.1 decodeOkEnv ['.', '/', 'm', '.', 'b', 'z', '2']
        ['m', '.', 'b', 'z', '2'] [7] rfl rfl).1⟩

/-- `lineTake` keeps a newline-free string whole. -/
lemma lineTake_eq_self (l : List Char) (h : '\n' ∉ l) : lineTake l = l := by
  induction l with
  | nil => rfl
  | cons c r ih =>
    simp only [List.mem_cons, not_or] at h
    simp [lineTake, Ne.symm h.1, ih h.2]

/-- A slash-free string has no last slash. -/
lemma splitLastSlash_none (l : List Char) (h : '/' ∉ l) : splitLastSlash l = none := by
  induction l with
  | nil => rfl
  | cons c r ih =>
    simp only [List.mem_cons, not_or] at h
    simp [splitLastSlash, ih h.2, Ne.symm h.1]

/-- `splitLastSlash` splits at the last slash. -/
lemma splitLastSlash_append (x y : List Char) (h : '/' ∉ y) :
    splitLastSlash (x ++ '/' :: y) = some (x, y) := by
  induction x with
  | nil => simp [splitLastSlash, splitLastSlash_none y h]
  | cons c r ih => simp [splitLastSlash, ih]

/-- The greedy tail of the pattern captures (up to the last slash, after it). -/
lemma tailCaptures_spec (g3 g4 : List Char) (h3 : '\n' ∉ g3) (h4 : '\n' ∉ g4)
    (hs : '/' ∉ g4) : tailCaptures (g3 ++ '/' :: g4) = some (g3, g4) := by
  have hmem : '\n' ∉ g3 ++ '/' :: g4 := by simp [h3, h4]
  rw [tailCaptures, lineTake_eq_self _ hmem, splitLastSlash_append g3 g4 hs]

/-- The lazy second capture stops at the first slash when the tail matches. -/
lemma scanHostTail_spec (xs : List Char) : ∀ (acc rest g3 g4 : List Char),
    '/' ∉ xs → '\n' ∉ xs → acc.reverse ++ xs ≠ [] →
    tailCaptures rest = some (g3, g4) →
    scanHostTail acc (xs ++ '/' :: rest) = some (acc.reverse ++ xs, g3, g4) := by
  induction xs with
  | nil =>
    intro acc rest g3 g4 _ _ hne ht
    obtain ⟨a, as, rfl⟩ := List.exists_cons_of_ne_nil (by simpa using hne)
    rw [List.nil_append]
    simp only [scanHostTail]
    simp [ht]
  | cons d xs ih =>
    intro acc rest g3 g4 hx1 hx2 hne ht
    simp only [List.mem_cons, not_or] at hx1 hx2
    rw [List.cons_append]
    simp only [scanHostTail]
    rw [if_neg (Ne.symm hx2.1), if_neg (Ne.symm hx1.1)]
    rw [ih (d :: acc) rest g3 g4 hx1.2 hx2.2 (by simp) ht]
    simp

/-- The lazy first capture stops at the first double slash when the rest
matches. -/
lemma scanSchemeRest_spec (xs : List Char) : ∀ (acc rest g2 g3 g4 : List Char),
    '/' ∉ xs → '\n' ∉ xs → acc.reverse ++ xs ≠ [] →
    scanHostTail [] rest = some (g2, g3, g4) →
    scanSchemeRest acc (xs ++ '/' :: '/' :: rest)
      = some (acc.reverse ++ xs, g2, g3, g4) := by
  induction xs with
  | nil =>
    intro acc rest g2 g3 g4 _ _ hne hh
    obtain ⟨a, as, rfl⟩ := List.exists_cons_of_ne_nil (by simpa using hne)
    rw [List.nil_append]
    simp only [scanSchemeRest]
    simp [hh]
  | cons d xs ih =>
    intro acc rest g2 g3 g4 hx1 hx2 hne hh
    simp only [List.mem_cons, not_or] at hx1 hx2
    have hstep : scanSchemeRest acc (d :: (xs ++ '/' :: '/' :: rest))
        = scanSchemeRest (d :: acc) (xs ++ '/' :: '/' :: rest) := by
      rcases hxe : xs ++ '/' :: '/' :: rest with _ | ⟨e, rest2⟩
      · exact absurd hxe (by simp)
      · simp only [scanSchemeRest]
        rw [if_neg (Ne.symm hx2.1), if_neg (fun hc => hx1.1 hc.1.symm)]
    rw [List.cons_append, hstep]
    rw [ih (d :: acc) rest g2 g3 g4 hx1.2 hx2.2 (by simp) hh]
    simp

/-- A successful backtracking match at position 0 is the leftmost match. -/
lemma regexCaptures_of_scan (u : List Char)
    (r : List Char × List Char × List Char × List Char)
    (hne : u ≠ []) (h : scanSchemeRest [] u = some r) : regexCaptures u = some r := by
  obtain ⟨a, as, rfl⟩ := List.exists_cons_of_ne_nil hne
  simp [regexCaptures, h]

/-- `replace("/", "\\")` keeps a slash-free string whole. -/
lemma replaceSlash_no_slash (l : List Char) (h : '/' ∉ l) : replaceSlashBackslash l = l := by
  induction l with
  | nil => rfl
  | cons c r ih =>
    simp only [List.mem_cons, not_or] at h
    have hr := ih h.2
    simp only [replaceSlashBackslash, List.map_cons] at hr ⊢
    rw [if_neg (Ne.symm h.1), hr]

/-- `replace("/", "\\")` on a two-segment directory capture. -/
lemma replaceSlash_append (a b : List Char) (ha : '/' ∉ a) (hb : '/' ∉ b) :
    replaceSlashBackslash (a ++ '/' :: b) = a ++ '\\' :: b := by
  have h1 := replaceSlash_no_slash a ha
  have h2 := replaceSlash_no_slash b hb
  simp only [replaceSlashBackslash, List.map_append, List.map_cons] at h1 h2 ⊢
  simp [h1, h2]

/-- C2: for a URL of the form scheme://host/a/b/c, the downloader derives the
directory path cwd\a\b (the URL path minus its final segment, prefixed with
the current working directory) and appends the final segment c to it to form
the file path. -/
theorem dl_url_paths_spec (cwd scheme host a b c : List Char)
    (hs1 : '/' ∉ scheme) (hs2 : '\n' ∉ scheme)
    (hh0 : host ≠ []) (hh1 : '/' ∉ host) (hh2 : '\n' ∉ host)
    (ha1 : '/' ∉ a) (ha2 : '\n' ∉ a) (hb1 : '/' ∉ b) (hb2 : '\n' ∉ b)
    (hc1 : '/' ∉ c) (hc2 : '\n' ∉ c) :
    dl_url_paths cwd
        (scheme ++ ':' :: '/' :: '/' :: (host ++ '/' :: (a ++ '/' :: (b ++ '/' :: c))))
      = some (cwd ++ '\\' :: (a ++ '\\' :: b),
          (cwd ++ '\\' :: (a ++ '\\' :: b)) ++ '\\' :: c) := by
  have h3 : '\n' ∉ a ++ '/' :: b := by simp [ha2, hb2]
  have htail : tailCaptures (a ++ '/' :: (b ++ '/' :: c)) = some (a ++ '/' :: b, c) := by
    simpa using tailCaptures_spec (a ++ '/' :: b) c h3 hc2 hc1
  have hhost : scanHostTail [] (host ++ '/' :: (a ++ '/' :: (b ++ '/' :: c)))
      = some (host, a ++ '/' :: b, c) := by
    simpa using
      scanHostTail_spec host [] (a ++ '/' :: (b ++ '/' :: c)) (a ++ '/' :: b) c
        hh1 hh2 (by simpa using hh0) htail
  have hx1 : '/' ∉ scheme ++ [':'] := by simp [hs1]
  have hx2 : '\n' ∉ scheme ++ [':'] := by simp [hs2]
  have hscan : scanSchemeRest []
      (scheme ++ ':' :: '/' :: '/' :: (host ++ '/' :: (a ++ '/' :: (b ++ '/' :: c))))
      = some (scheme ++ [':'], host, a ++ '/' :: b, c) := by
    simpa using
      scanSchemeRest_spec (scheme ++ [':']) []
        (host ++ '/' :: (a ++ '/' :: (b ++ '/' :: c))) host (a ++ '/' :: b) c
        hx1 hx2 (by simp) hhost
  have hcap : regexCaptures
      (scheme ++ ':' :: '/' :: '/' :: (host ++ '/' :: (a ++ '/' :: (b ++ '/' :: c))))
      = some (scheme ++ [':'], host, a ++ '/' :: b, c) :=
    regexCaptures_of_scan _ _ (by simp) hscan
  simp only [dl_url_paths, hcap]
  rw [replaceSlash_append a b ha1 hb1]

/-- Witness for `dl_url_paths_spec` at the concrete URL h://w/a/b/c with
working directory C. -/
theorem dl_url_paths_spec_witness :
    ('/' ∉ (['h'] : List Char)) ∧ ('\n' ∉ (['h'] : List Char))
      ∧ ((['w'] : List Char) ≠ []) ∧ ('/' ∉ (['w'] : List Char))
      ∧ ('\n' ∉ (['w'] : List Char))
      ∧ ('/' ∉ (['a'] : List Char)) ∧ ('\n' ∉ (['a'] : List Char))
      ∧ ('/' ∉ (['b'] : List Char)) ∧ ('\n' ∉ (['b'] : List Char))
      ∧ ('/' ∉ (['c'] : List Char)) ∧ ('\n' ∉ (['c'] : List Char))
      ∧ dl_url_paths ['C']
          (['h'] ++ ':' :: '/' :: '/' :: (['w'] ++ '/' :: (['a'] ++ '/' :: (['b'] ++ '/' :: ['c']))))
        = some (['C'] ++ '\\' :: (['a'] ++ '\\' :: ['b']),
            (['C'] ++ '\\' :: (['a'] ++ '\\' :: ['b'])) ++ '\\' :: ['c']) :=
  ⟨by decide, by decide, by decide, by decide, by decide, by decide, by decide,
    by decide, by decide, by decide, by decide,
    dl_url_paths_spec ['C'] ['h'] ['w'] ['a'] ['b'] ['c'] (by decide) (by decide)
      (by decide) (by decide) (by decide) (by decide) (by decide) (by decide)
      (by decide) (by decide) (by decide)⟩

/-- The segment walk never yields an empty segment list. -/
lemma splitSlash_ne_nil (l : List Char) : splitSlash l ≠ [] := by
  induction l with
  | nil => simp [splitSlash]
  | cons c cs _ =>
    simp only [splitSlash]
    split
    · simp
    · split <;> simp

/-- A slash-free string is a single segment. -/
lemma splitSlash_no_slash (s : List Char) (h : '/' ∉ s) : splitSlash s = [s] := by
  induction s with
  | nil => rfl
  | cons c cs ih =>
    simp only [List.mem_cons, not_or] at h
    simp only [splitSlash]
    rw [ih h.2]
    simp [Ne.symm h.1]

/-- Splitting after a slash-free head segment. -/
lemma splitSlash_append (s t : List Char) (h : '/' ∉ s) :
    splitSlash (s ++ '/' :: t) = s :: splitSlash t := by
  induction s with
  | nil =>
    simp only [List.nil_append, splitSlash]
    rcases ht : splitSlash t with _ | ⟨x, rest⟩
    · exact absurd ht (splitSlash_ne_nil t)
    · simp
  | cons c cs ih =>
    simp only [List.mem_cons, not_or] at h
    simp only [List.cons_append, splitSlash, List.append_eq]
    rw [ih h.2]
    simp [Ne.symm h.1]

/-- Joining after appending one final segment. -/
lemma joinSlash_append_single (xs : List (List Char)) (y : List Char) (h : xs ≠ []) :
    joinSlash (xs ++ [y]) = joinSlash xs ++ '/' :: y := by
  induction xs with
  | nil => exact absurd rfl h
  | cons s rest ih =>
    rcases rest with _ | ⟨s2, rest2⟩
    · simp [joinSlash]
    · have hrec := ih (by simp)
      simp only [List.cons_append, joinSlash, List.append_eq] at hrec ⊢
      rw [hrec]
      simp

/-- Splitting inverts joining for slash-free segments. -/
lemma splitSlash_joinSlash (ss : List (List Char)) (hne : ss ≠ [])
    (h : ∀ s ∈ ss, '/' ∉ s) : splitSlash (joinSlash ss) = ss := by
  induction ss with
  | nil => exact absurd rfl hne
  | cons s rest ih =>
    rcases rest with _ | ⟨s2, rest2⟩
    · exact splitSlash_no_slash s (h s (by simp))
    · simp only [joinSlash]
      rw [splitSlash_append s _ (h s (by simp))]
      rw [ih (by simp) (fun x hx => h x (List.mem_cons_of_mem s hx))]

/-- Dot-segment removal of a path ending in `".."`: the previous segment is
popped and an empty (trailing-separator) segment is appended. -/
lemma normSegsAux_dotdot (ss : List (List Char)) : ∀ out : List (List Char),
    (∀ s ∈ ss, s ≠ dotSeg ∧ s ≠ dotdotSeg) →
    normSegsAux out (ss ++ [dotdotSeg]) = (out ++ ss).dropLast ++ [[]] := by
  induction ss with
  | nil =>
    intro out _
    simp [normSegsAux]
  | cons s ss ih =>
    intro out h
    simp only [List.mem_cons] at h
    have hs := h s (Or.inl rfl)
    rw [List.cons_append]
    rcases hss : ss ++ [dotdotSeg] with _ | ⟨s2, rest2⟩
    · exact absurd hss (by simp)
    · simp only [normSegsAux]
      rw [if_neg hs.2, if_neg hs.1, ← hss]
      rw [ih (out ++ [s]) (fun x hx => h x (Or.inr hx))]
      simp [List.append_assoc]

/-- Dot-segment removal is the identity on a dot-free path ending in the empty
(trailing-separator) segment. -/
lemma normSegsAux_clean (ss : List (List Char)) : ∀ out : List (List Char),
    (∀ s ∈ ss, s ≠ dotSeg ∧ s ≠ dotdotSeg) →
    normSegsAux out (ss ++ [[]]) = out ++ ss ++ [[]] := by
  induction ss with
  | nil =>
    intro out _
    simp [normSegsAux, dotSeg, dotdotSeg]
  | cons s ss ih =>
    intro out h
    simp only [List.mem_cons] at h
    have hs := h s (Or.inl rfl)
    rw [List.cons_append]
    rcases hss : ss ++ [[]] with _ | ⟨s2, rest2⟩
    · exact absurd hss (by simp)
    · simp only [normSegsAux]
      rw [if_neg hs.2, if_neg hs.1, ← hss]
      rw [ih (out ++ [s]) (fun x hx => h x (Or.inr hx))]
      simp

/-- C5: for a crawl root whose path is /seg1/.../segN/ (written as the join of
its dot-free, slash-free segments with a trailing separator), the initial
visited set is exactly the synthetic root "/", the root's parent directory
with its trailing separator, and the same parent with the separator removed;
and the initial frontier is exactly the root's path. -/
theorem scrape_init_spec (segs : List (List Char)) (hne : segs ≠ [])
    (hseg : ∀ s ∈ segs, '/' ∉ s ∧ s ≠ dotSeg ∧ s ≠ dotdotSeg) :
    scrapeInit ('/' :: joinSlash (segs ++ [[]]))
      = ([['/'], '/' :: joinSlash (segs.dropLast ++ [[]]),
          ('/' :: joinSlash (segs.dropLast ++ [[]])).dropLast],
         ['/' :: joinSlash (segs ++ [[]])]) := by
  have hslash : ∀ s ∈ segs ++ [[]], '/' ∉ s := by
    intro s hs
    rcases List.mem_append.mp hs with h1 | h1
    · exact (hseg s h1).1
    · simp only [List.mem_singleton] at h1
      subst h1
      simp
  have hslash2 : ∀ s ∈ segs ++ [dotdotSeg], '/' ∉ s := by
    intro s hs
    rcases List.mem_append.mp hs with h1 | h1
    · exact (hseg s h1).1
    · simp only [List.mem_singleton] at h1
      subst h1
      simp [dotdotSeg]
  have hclean : ∀ s ∈ segs, s ≠ dotSeg ∧ s ≠ dotdotSeg := fun s hs => (hseg s hs).2
  have hjoin : joinSlash (segs ++ [[]]) ++ dotdotSeg = joinSlash (segs ++ [dotdotSeg]) := by
    rw [joinSlash_append_single segs [] hne, joinSlash_append_single segs dotdotSeg hne]
    simp
  have hroot : urlNormPath ('/' :: joinSlash (segs ++ [[]]))
      = '/' :: joinSlash (segs ++ [[]]) := by
    simp only [urlNormPath]
    rw [splitSlash_joinSlash _ (by simp) hslash, normSegsAux_clean segs [] hclean]
    simp
  have hparent : urlNormPath (('/' :: joinSlash (segs ++ [[]])) ++ dotdotSeg)
      = '/' :: joinSlash (segs.dropLast ++ [[]]) := by
    rw [List.cons_append, hjoin]
    simp only [urlNormPath]
    rw [splitSlash_joinSlash _ (by simp) hslash2]
    rw [normSegsAux_dotdot segs [] hclean]
    simp
  simp only [scrapeInit]
  rw [hroot, hparent]

/-- Witness for `scrape_init_spec` on the concrete root path /s/d/. -/
theorem scrape_init_spec_witness :
    (([['s'], ['d']] : List (List Char)) ≠ [])
      ∧ (∀ s ∈ ([['s'], ['d']] : List (List Char)), '/' ∉ s ∧ s ≠ dotSeg ∧ s ≠ dotdotSeg)
      ∧ scrapeInit ('/' :: joinSlash ([['s'], ['d']] ++ [[]]))
          = ([['/'], '/' :: joinSlash (([['s'], ['d']] : List (List Char)).dropLast ++ [[]]),
              ('/' :: joinSlash (([['s'], ['d']] : List (List Char)).dropLast ++ [[]])).dropLast],
             ['/' :: joinSlash ([['s'], ['d']] ++ [[]])]) :=
  ⟨by decide, by decide, scrape_init_spec [['s'], ['d']] (by decide) (by decide)⟩

/-- C7 counterexample: with a root whose listing page fetches fine but whose
child listing page /s/a/ cannot be fetched, the crawl neither propagates an
error nor returns a completed DownloadLinkSet: it aborts by panic. -/
theorem scrape_web_panic_counterexample :
    crawlEnvPanic.fetchPage ['/', 's', '/'] = Except.ok [['x']]
      ∧ scrape_web crawlEnvPanic 3 ['/', 's', '/'] = CrawlResult.panicked :=
  ⟨rfl, by decide⟩

/-- C7 amended: if fetching the root listing page fails, the crawl returns
that propagated error (so no partial DownloadLinkSet is returned), and a
DownloadLinkSet is only ever returned when the root fetch succeeded — a fetch
failure on a later listing page instead aborts the crawl by panic without
returning a set. -/
theorem scrape_web_error_spec :
    (∀ (env : CrawlEnv) (fuel : Nat) (rootPath e : List Char),
        env.fetchPage rootPath = Except.error e →
        scrape_web env fuel rootPath = CrawlResult.err e) ∧
      (∀ (env : CrawlEnv) (fuel : Nat) (rootPath : List Char) (s : List (List Char)),
        scrape_web env fuel rootPath = CrawlResult.ok s →
        ∃ hrefs, env.fetchPage rootPath = Except.ok hrefs) := by
  constructor
  · intro env fuel rootPath e h
    simp [scrape_web, h]
  · intro env fuel rootPath s h
    simp only [scrape_web] at h
    cases hf : env.fetchPage rootPath with
    | error e => rw [hf] at h; simp at h
    | ok hrefs => exact ⟨hrefs, rfl⟩

/-- Witness for `scrape_web_error_spec` on a concrete failing root fetch. -/
theorem scrape_web_error_spec_witness :
    crawlEnvErr.fetchPage ['/', 's', '/'] = Except.error ['E']
      ∧ scrape_web crawlEnvErr 2 ['/', 's', '/'] = CrawlResult.err ['E'] :=
  ⟨rfl, scrape_web_error_spec.1 crawlEnvErr 2 ['/', 's', '/'] ['E'] rfl⟩
